import Mathlib

/-!
Shallow embedding of `src/src/clipboardmodel.cpp` (CopyQ clipboard list model).

Modelling conventions:
* `QString` is `List Char` (`QStr`); `QStringList` is `List QStr`.
* `QRegExp` is modelled abstractly by its pattern-emptiness flag and its
  `indexIn` behaviour: `indexIn s a` returns `some (b, len)` when
  `QRegExp::indexIn(s, a)` returns position `b` with `matchedLength() = len`,
  and `none` when it returns `-1`.
* The model state `m_clipboardList` is a `List ClipboardItem`.  The
  `ClipboardItem` class itself lives in a file of the repository that is not
  part of `src/`; here it is a plain record of the fields this file uses
  (text, filter flag, highlight string, optional image payload).  An item
  constructed from a `QString` (`mkItem`) starts unfiltered with an empty
  highlight and no image.
* Functions that in C++ return `bool` and mutate the model return
  `Bool × List ClipboardItem`; `ClipboardModel::move` returns
  `Option (List ClipboardItem)` where `none` models `return false` with the
  list unchanged.
* `QAbstractItemModel::beginMoveRows` (Qt) returns `false` exactly when the
  destination row lies in `[sourceFirst, sourceLast + 1]` for a move inside
  the same parent (`QAbstractItemModelPrivate::allowMove`); this is the only
  failure case reachable from `ClipboardModel::move`.
* The unbounded C++ search loop in `setSearch(int, const QRegExp*)` is
  translated with fuel `length + 1`, which suffices for any matcher that
  only reports matches at or after the queried position, inside the string,
  and of non-zero length (the loop breaks on zero-length matches anyway).
-/

namespace CopyQ

abbrev QStr := List Char

/-- Per-character replacement table of `escape` (the `repl` map in the
source); a character not in the map is kept as itself. -/
def replChar (c : Char) : QStr :=
  if c = ' ' then "&nbsp;".toList
  else if c = '\t' then "&nbsp;&nbsp;".toList
  else if c = '\n' then "<br />".toList
  else if c = '>' then "&gt;".toList
  else if c = '<' then "&lt;".toList
  else if c = '&' then "&amp;".toList
  else [c]

/-- Model of `escape(const QString&)`: character-by-character rewriting loop. -/
def escape : QStr → QStr
  | [] => []
  | c :: cs => replChar c ++ escape cs

/-- The fields of `ClipboardItem` used by `clipboardmodel.cpp`.  The class
definition is in `clipboarditem.h`, not under `src/`; construction from a
string yields that text with default (cleared) search state and no image. -/
structure ClipboardItem where
  text : QStr
  filtered : Bool
  highlight : QStr
  image : Option Nat
deriving DecidableEq

/-- A `ClipboardItem` built from a `QString` (implicit conversion used by
`m_clipboardList.append(str)`, `insert(position, QString())`, `replace`). -/
def mkItem (s : QStr) : ClipboardItem :=
  ⟨s, false, [], none⟩

/-- Abstract `QRegExp`: pattern emptiness plus the `indexIn`/`matchedLength`
behaviour (see module docstring). -/
structure QRegExp where
  isEmpty : Bool
  indexIn : QStr → Nat → Option (Nat × Nat)

/-- Model of `QString::mid(a, n)`. -/
def qmid (s : QStr) (a n : Nat) : QStr :=
  (s.drop a).take n

def spanOpen : QStr := "<span class=\"em\">".toList

def spanClose : QStr := "</span>".toList

/-- The highlight-building `while ( b != -1 )` loop of
`ClipboardModel::setSearch(int, const QRegExp*)`.  Arguments: fuel, current
search position `a`, accumulated `highlight`.  Returns the accumulated
highlight together with the final value of `a`. -/
def hlLoop (m : QStr → Nat → Option (Nat × Nat)) (s : QStr) :
    Nat → Nat → QStr → QStr × Nat
  | 0, a, acc => (acc, a)
  | fuel + 1, a, acc =>
    match m s a with
    | none => (acc, a)
    | some (b, len) =>
      if len = 0 then (acc, a)
      else
        hlLoop m s fuel (b + len)
          (acc ++ escape (qmid s a (b - a)) ++ spanOpen ++
            escape (qmid s b len) ++ spanClose)

/-- Model of `ClipboardModel::setSearch(int, const QRegExp*)` acting on the single
item at the given row (the row lookup is `setSearchRow`). -/
def setSearchItem (re : Option QRegExp) (it : ClipboardItem) : ClipboardItem :=
  match re with
  | none => { it with filtered := false }
  | some r =>
    if r.isEmpty then { it with filtered := false }
    else
      let p := hlLoop r.indexIn it.text (it.text.length + 1) 0 []
      if p.1 = [] then { it with filtered := true }
      else
        { it with
          filtered := false,
          highlight :=
            if p.2 ≠ it.text.length then p.1 ++ escape (it.text.drop p.2)
            else p.1 }

/-- Model of `ClipboardModel::setSearch(int, const QRegExp*)` at row `i` of the
model list (a row outside the list is C++ undefined behaviour; modelled as
a no-op). -/
def setSearchRow (l : List ClipboardItem) (i : Nat) (re : Option QRegExp) :
    List ClipboardItem :=
  match l[i]? with
  | none => l
  | some it => l.set i (setSearchItem re it)

/-- Model of `QVariant` restricted to the values this file produces. -/
inductive QVariant where
  | null : QVariant
  | str : QStr → QVariant
  | img : Nat → QVariant
deriving DecidableEq

/-- Model of `QVariant::toString()` on the modelled values. -/
def qvariantToString : QVariant → QStr
  | QVariant.str s => s
  | _ => []

/-- Model of `QModelIndex`, reduced to the validity flag and row used here. -/
structure QModelIndex where
  valid : Bool
  row : Int
deriving DecidableEq

def displayRole : Int := 0

def editRole : Int := 2

/-- Model of `ClipboardModel::ClipboardModel(const QStringList&)`. -/
def mkClipboardModel (items : List QStr) : List ClipboardItem :=
  items.map mkItem

/-- Model of `ClipboardModel::rowCount`. -/
def rowCount (l : List ClipboardItem) : Int :=
  l.length

/-- Model of `ClipboardModel::data`. -/
def data (l : List ClipboardItem) (index : QModelIndex) (role : Int) :
    QVariant :=
  if !index.valid || ((l.length : Int) ≤ index.row) then QVariant.null
  else
    match l[index.row.toNat]? with
    | none => QVariant.null
    | some it =>
      if it.image.isSome ∧ (role = displayRole ∨ role = editRole) then
        QVariant.img (it.image.getD 0)
      else if role = displayRole then QVariant.str it.highlight
      else if role = editRole then QVariant.str it.text
      else QVariant.null

/-- Model of `ClipboardModel::setData`.  The one-argument `setSearch(int)` called on
the edited row is declared in `clipboardmodel.h` (not under `src/`) with a
NULL-defaulted regex argument, i.e. it clears the filter flag of that row. -/
def setData (l : List ClipboardItem) (index : QModelIndex) (value : QVariant)
    (role : Int) : Bool × List ClipboardItem :=
  if index.valid ∧ role = editRole then
    let row := index.row.toNat
    let l1 :=
      match value with
      | QVariant.img n =>
        match l[row]? with
        | some it => l.set row { it with image := some n }
        | none => l
      | v => l.set row (mkItem (qvariantToString v))
    (true, setSearchRow l1 row none)
  else (false, l)

/-- The insertion loop of `ClipboardModel::insertRows` (`rows` iterations of
`m_clipboardList.insert(position, QString())`). -/
def insertLoop (p : Nat) : Nat → List ClipboardItem → List ClipboardItem
  | 0, l => l
  | k + 1, l => insertLoop p k (l.insertIdx p (mkItem []))

/-- Model of `ClipboardModel::insertRows`. -/
def insertRows (l : List ClipboardItem) (position rows : Int) :
    Bool × List ClipboardItem :=
  (true, insertLoop position.toNat rows.toNat l)

/-- The removal loop of `ClipboardModel::removeRows` (`rows` iterations of
`m_clipboardList.removeAt(position)`). -/
def removeLoop (p : Nat) : Nat → List ClipboardItem → List ClipboardItem
  | 0, l => l
  | k + 1, l => removeLoop p k (l.eraseIdx p)

/-- Model of `ClipboardModel::removeRows`. -/
def removeRows (l : List ClipboardItem) (position rows : Int) :
    Bool × List ClipboardItem :=
  (true, removeLoop position.toNat rows.toNat l)

/-- Model of `ClipboardModel::getRowNumber`. -/
def getRowNumber (l : List ClipboardItem) (row : Int) (cycle : Bool) : Int :=
  let n : Int := l.length
  if n = 0 then -1
  else if row ≥ n then (if cycle then 0 else n - 1)
  else if row < 0 then (if cycle then n - 1 else 0)
  else row

/-- Model of `QList::move(from, to)`: the element at `f` ends up at index `t`. -/
def qlistMove (l : List ClipboardItem) (f t : Nat) : List ClipboardItem :=
  match l[f]? with
  | none => l
  | some x => (l.eraseIdx f).insertIdx t x

/-- Model of `QAbstractItemModel::beginMoveRows` for a one-row move inside the same
parent: rejected exactly when the destination is in `[fro, fro + 1]`. -/
def beginMoveRowsOK (fro dest : Int) : Bool :=
  !(fro ≤ dest && dest ≤ fro + 1)

/-- Model of `ClipboardModel::move`; `none` models `return false` (list unchanged). -/
def moveList (l : List ClipboardItem) (pos newpos : Int) :
    Option (List ClipboardItem) :=
  let fro := getRowNumber l pos true
  let toRow := getRowNumber l newpos true
  if fro = -1 ∨ toRow = -1 then none
  else if beginMoveRowsOK fro (if fro < toRow then toRow + 1 else toRow) then
    some (qlistMove l fro.toNat toRow.toNat)
  else none

def keyHome : Int := 0x01000010

def keyEnd : Int := 0x01000011

def keyUp : Int := 0x01000013

def keyDown : Int := 0x01000015

/-- Ordered insertion used by `sortRows`. -/
def insSorted (x : Int) : List Int → List Int
  | [] => [x]
  | y :: ys => if x ≤ y then x :: y :: ys else y :: insSorted x ys

/-- Model of `qSort` on a `QModelIndexList`, which here carries only row numbers:
sort ascending. -/
def sortRows : List Int → List Int
  | [] => []
  | x :: xs => insSorted x (sortRows xs)

/-- The local variable `from` of iteration `i` of the `moveItems` loop. -/
def itemsFrom (key : Int) (sorted : List Int) (i : Nat) : Int :=
  if key = keyDown ∨ key = keyEnd then sorted.getD (sorted.length - 1 - i) 0
  else sorted.getD i 0

/-- The local variable `to` of iteration `i` of the `moveItems` loop (the
`switch` over the direction key; the default case covers Qt::Key_Home). -/
def itemsTo (key : Int) (sorted : List Int) (i : Nat)
    (st : List ClipboardItem) : Int :=
  if key = keyDown then itemsFrom key sorted i + 1
  else if key = keyUp then itemsFrom key sorted i - 1
  else if key = keyEnd then (st.length : Int) - i - 1
  else 0 + (i : Int)

/-- The `for` loop of `ClipboardModel::moveItems`.  `i` is the loop counter,
the `Nat` fuel argument is `list.length - i`, `st` the current list state,
`res` the accumulated result flag. -/
def moveItemsLoop (key : Int) (sorted : List Int) :
    Nat → Nat → List ClipboardItem → Bool → Bool × List ClipboardItem
  | _, 0, st, res => (res, st)
  | i, k + 1, st, res =>
    match moveList st (itemsFrom key sorted i) (itemsTo key sorted i st) with
    | none => (false, st)
    | some st2 =>
      moveItemsLoop key sorted (i + 1) k st2
        (res || decide (itemsTo key sorted i st = 0))

/-- Model of `ClipboardModel::moveItems` (the index list is modelled by its rows). -/
def moveItems (l : List ClipboardItem) (rows : List Int) (key : Int) :
    Bool × List ClipboardItem :=
  moveItemsLoop key (sortRows rows) 0 (sortRows rows).length l false

/-! ### Specification-side definitions

The following definitions are written from the words of the specification
and of the claims, to be compared with the source-derived definitions
above. -/

/-- Spec-side: the successive non-overlapping matches of a regex in `s`,
taken left to right, starting the next search where the previous match
ends.  Fuel-bounded like `hlLoop`. -/
def matchSeq (m : QStr → Nat → Option (Nat × Nat)) (s : QStr) :
    Nat → Nat → List (Nat × Nat)
  | 0, _ => []
  | fuel + 1, a =>
    match m s a with
    | none => []
    | some (b, len) => (b, len) :: matchSeq m s fuel (b + len)

/-- Spec-side: the highlight described by the claim — for each match, the
escaped text between the end of the previous match and the start of this
one, then the opening span, the escaped matched text and the closing span,
followed at the end by the escaped remainder of `s`. -/
def specHL (s : QStr) : List (Nat × Nat) → Nat → QStr
  | [], a => escape (s.drop a)
  | (b, len) :: rest, a =>
    escape (qmid s a (b - a)) ++ spanOpen ++ escape (qmid s b len) ++
      spanClose ++ specHL s rest (b + len)

/-- Spec-side companion of `moveItemsLoop`: records whether, during the
operation, some successful `move` placed an item at the top row, i.e. had
wrapped destination row `0`.  Mirrors the loop of the source function. -/
def movedToTopLoop (key : Int) (sorted : List Int) :
    Nat → Nat → List ClipboardItem → Bool → Bool
  | _, 0, _, acc => acc
  | i, k + 1, st, acc =>
    match moveList st (itemsFrom key sorted i) (itemsTo key sorted i st) with
    | none => acc
    | some st2 =>
      movedToTopLoop key sorted (i + 1) k st2
        (acc || decide (getRowNumber st (itemsTo key sorted i st) true = 0))

/-- Spec-side: true when some item was moved to the top row during
`moveItems` on the given input. -/
def movedToTop (l : List ClipboardItem) (rows : List Int) (key : Int) : Bool :=
  movedToTopLoop key (sortRows rows) 0 (sortRows rows).length l false

/-- The behaviour of `QRegExp("a*")`: at every start position up to the end
of the string it matches, at that position, the maximal run of consecutive
characters `a` (possibly of length zero). -/
def reAStar : QRegExp :=
  ⟨false, fun s a =>
    if a ≤ s.length then some (a, ((s.drop a).takeWhile (· = 'a')).length)
    else none⟩

/-- A regex matching exactly one character at position `0` of any string
(e.g. `QRegExp("^.")` in non-multiline mode on a non-empty line). -/
def rePos0 : QRegExp :=
  ⟨false, fun _ a => if a = 0 then some (0, 1) else none⟩

/-! ### Helper lemmas -/

theorem removeLoop_eq (p : Nat) :
    ∀ (n : Nat) (l : List ClipboardItem), p + n ≤ l.length →
      removeLoop p n l = l.take p ++ l.drop (p + n) := by
  intro n
  induction n with
  | zero =>
    intro l _
    simp [removeLoop]
  | succ k ih =>
    intro l h
    have hp : p < l.length := by omega
    have htp : (l.take p).length = p := by
      rw [List.length_take]
      omega
    have hlen : (l.eraseIdx p).length = l.length - 1 := by
      rw [List.length_eraseIdx, if_pos hp]
    rw [removeLoop, ih (l.eraseIdx p) (by omega),
      List.eraseIdx_eq_take_drop_succ, List.take_left' htp,
      show p + k = (l.take p).length + k from by omega, List.drop_append,
      List.drop_drop, show p + 1 + k = p + (k + 1) from by omega]

theorem insertIdx_eq_take_cons_drop {α : Type} (e : α) :
    ∀ (p : Nat) (l : List α), p ≤ l.length →
      l.insertIdx p e = l.take p ++ e :: l.drop p := by
  intro p
  induction p with
  | zero =>
    intro l _
    simp
  | succ q ih =>
    intro l h
    cases l with
    | nil => simp at h
    | cons x xs =>
      simp only [List.insertIdx_succ_cons, List.take_succ_cons,
        List.drop_succ_cons, List.cons_append, List.cons.injEq, true_and]
      exact ih xs (by simpa using h)

theorem insertLoop_eq (p : Nat) :
    ∀ (n : Nat) (l : List ClipboardItem), p ≤ l.length →
      insertLoop p n l = l.take p ++ List.replicate n (mkItem []) ++ l.drop p := by
  intro n
  induction n with
  | zero =>
    intro l _
    simp [insertLoop]
  | succ k ih =>
    intro l h
    have htp : (l.take p).length = p := by
      rw [List.length_take]
      omega
    have hlen : (l.insertIdx p (mkItem [])).length = l.length + 1 :=
      List.length_insertIdx p l h
    rw [insertLoop, ih (l.insertIdx p (mkItem [])) (by omega),
      insertIdx_eq_take_cons_drop _ p l h, List.take_left' htp,
      List.drop_left' htp, List.replicate_succ']
    simp [List.append_assoc]

theorem replChar_eq_self {c : Char}
    (h : c ∉ ([' ', '\t', '\n', '<', '>', '&'] : List Char)) :
    replChar c = [c] := by
  simp only [List.mem_cons, List.not_mem_nil, or_false, not_or] at h
  obtain ⟨h1, h2, h3, h4, h5, h6⟩ := h
  simp [replChar, h1, h2, h3, h4, h5, h6]

theorem escape_append (s t : QStr) : escape (s ++ t) = escape s ++ escape t := by
  induction s with
  | nil => rfl
  | cons c cs ih =>
    simp [escape, ih, List.append_assoc]

theorem escape_of_no_special (s : QStr)
    (h : ∀ c ∈ s, c ∉ ([' ', '\t', '\n', '<', '>', '&'] : List Char)) :
    escape s = s := by
  induction s with
  | nil => rfl
  | cons c cs ih =>
    rw [escape, replChar_eq_self (h c (List.mem_cons_self c cs)),
      ih (fun d hd => h d (List.mem_cons_of_mem c hd))]
    rfl

theorem hlLoop_acc (m : QStr → Nat → Option (Nat × Nat)) (s : QStr) :
    ∀ (fuel a : Nat) (acc : QStr),
      hlLoop m s fuel a acc =
        (acc ++ (hlLoop m s fuel a []).1, (hlLoop m s fuel a []).2) := by
  intro fuel
  induction fuel with
  | zero =>
    intro a acc
    simp [hlLoop]
  | succ k ih =>
    intro a acc
    rw [hlLoop, hlLoop]
    cases h : m s a with
    | none => simp
    | some bl =>
      obtain ⟨b, len⟩ := bl
      by_cases hz : len = 0
      · simp [hz]
      · simp only [if_neg hz]
        rw [ih (b + len)
          (acc ++ escape (qmid s a (b - a)) ++ spanOpen ++
            escape (qmid s b len) ++ spanClose),
          ih (b + len)
          ([] ++ escape (qmid s a (b - a)) ++ spanOpen ++
            escape (qmid s b len) ++ spanClose)]
        simp [List.append_assoc]

/-- If the first match (from position `0`) exists and has positive length,
the highlight accumulated by the search loop is non-empty (the loop body
always appends the opening span marker). -/
theorem hlLoop_first_pos (m : QStr → Nat → Option (Nat × Nat)) (s : QStr)
    {b k : Nat} (h : m s 0 = some (b, k + 1)) :
    (hlLoop m s (s.length + 1) 0 []).1 ≠ [] := by
  rw [hlLoop, h]
  dsimp only
  rw [if_neg (Nat.succ_ne_zero k), hlLoop_acc]
  have hgt : 0 < spanOpen.length := by decide
  apply List.ne_nil_of_length_pos
  simp only [List.length_append]
  omega

theorem setSearchItem_filtered_iff (it : ClipboardItem) (re : QRegExp)
    (hre : re.isEmpty = false) :
    ((setSearchItem (some re) it).filtered = false ↔
      ∃ b len, re.indexIn it.text 0 = some (b, len) ∧ len ≠ 0) ∧
    ((setSearchItem (some re) it).filtered = false →
      (setSearchItem (some re) it).highlight ≠ []) := by
  simp only [setSearchItem, hre, Bool.false_eq_true, if_false]
  cases h : re.indexIn it.text 0 with
  | none =>
    rw [show hlLoop re.indexIn it.text (it.text.length + 1) 0 [] = ([], 0)
      from by rw [hlLoop, h]]
    simp [h]
  | some bl =>
    obtain ⟨b, len⟩ := bl
    cases len with
    | zero =>
      rw [show hlLoop re.indexIn it.text (it.text.length + 1) 0 [] = ([], 0)
        from by rw [hlLoop, h]; simp]
      simp [h]
    | succ k =>
      have hp1 := hlLoop_first_pos re.indexIn it.text h
      rw [if_neg hp1]
      refine ⟨⟨fun _ => ⟨b, k + 1, rfl, Nat.succ_ne_zero k⟩, fun _ => rfl⟩, ?_⟩
      intro _
      by_cases h2 : (hlLoop re.indexIn it.text (it.text.length + 1) 0 []).2 ≠
          it.text.length
      · rw [if_pos h2]
        intro hnil
        rw [List.append_eq_nil] at hnil
        exact hp1 hnil.1
      · rw [if_neg h2]
        exact hp1

/-- For a matcher that only reports matches at or after the queried
position, inside the string, and of non-zero length, the search loop
computes exactly the spec-side highlight of the successive matches: the
accumulated highlight followed by the escaped remainder equals `specHL` of
`matchSeq`. -/
theorem hlLoop_spec (m : QStr → Nat → Option (Nat × Nat)) (s : QStr)
    (hm : ∀ a b len, m s a = some (b, len) →
      a ≤ b ∧ b + len ≤ s.length ∧ len ≠ 0) :
    ∀ (fuel a : Nat), s.length + 1 ≤ fuel + a →
      (hlLoop m s fuel a []).1 ++ escape (s.drop (hlLoop m s fuel a []).2) =
        specHL s (matchSeq m s fuel a) a := by
  intro fuel
  induction fuel with
  | zero =>
    intro a _
    simp [hlLoop, matchSeq, specHL]
  | succ k ih =>
    intro a hfa
    rw [hlLoop, matchSeq]
    cases h : m s a with
    | none => simp [specHL]
    | some bl =>
      obtain ⟨b, len⟩ := bl
      obtain ⟨hab, hbl, hlen⟩ := hm a b len h
      dsimp only
      rw [if_neg hlen, hlLoop_acc, specHL]
      have hx : s.length + 1 ≤ k + (b + len) := by omega
      rw [← ih (b + len) hx]
      simp [List.append_assoc]

theorem getRowNumber_bounds (l : List ClipboardItem) (row : Int)
    (hn : 0 < l.length) :
    0 ≤ getRowNumber l row true ∧ getRowNumber l row true < (l.length : Int)
    := by
  simp only [getRowNumber]
  rw [if_neg (by omega : ¬((l.length : Int) = 0))]
  by_cases h1 : row ≥ (l.length : Int)
  · rw [if_pos h1]
    simp only [if_true]
    omega
  · rw [if_neg h1]
    by_cases h2 : row < 0
    · rw [if_pos h2]
      simp only [if_true]
      omega
    · rw [if_neg h2]
      omega

theorem getRowNumber_zero {st : List ClipboardItem} (h : st ≠ []) :
    getRowNumber st 0 true = 0 := by
  have hn : 0 < st.length := List.length_pos.mpr h
  simp only [getRowNumber]
  rw [if_neg (by omega : ¬((st.length : Int) = 0)),
    if_neg (by omega : ¬((0 : Int) ≥ (st.length : Int))),
    if_neg (by omega : ¬((0 : Int) < 0))]

theorem moveList_some_ne_nil {st st2 : List ClipboardItem} {a b : Int}
    (h : moveList st a b = some st2) : st ≠ [] := by
  intro hst
  subst hst
  rw [show moveList [] a b = none from rfl] at h
  exact Option.noConfusion h

/-! ### Claims -/

/-- Claim C1 (amended): after `setSearch(i, re)` with a non-empty regular
expression, the item at row `i` is marked filtered iff the first match of
the regex in the item text (searched from position `0`) is absent or has
length zero; when the first match is non-empty the item is left unfiltered
and is given a non-empty highlight string. -/
theorem setSearch_filter_spec (l : List ClipboardItem) (i : Nat)
    (re : QRegExp) (it : ClipboardItem) (hi : l[i]? = some it)
    (hre : re.isEmpty = false) :
    (setSearchRow l i (some re))[i]? = some (setSearchItem (some re) it) ∧
    ((setSearchItem (some re) it).filtered = false ↔
      ∃ b len, re.indexIn it.text 0 = some (b, len) ∧ len ≠ 0) ∧
    ((setSearchItem (some re) it).filtered = false →
      (setSearchItem (some re) it).highlight ≠ []) := by
  obtain ⟨hlt, -⟩ := List.getElem?_eq_some.mp hi
  refine ⟨?_, setSearchItem_filtered_iff it re hre⟩
  simp only [setSearchRow]
  rw [hi]
  exact List.getElem?_set_self hlt

/-- Counterexample to claim C1 as stated: for `QRegExp("a*")` (a non-empty
regular expression) on the item text "ba", the regex does find a match in
the text (an empty one at position 0, and a non-empty one at position 1),
yet after `setSearch(0, re)` the item is marked filtered, because the
search loop stops at the first zero-length match with an empty highlight. -/
theorem setSearch_filter_cex :
    reAStar.isEmpty = false ∧
    reAStar.indexIn ['b', 'a'] 0 = some (0, 0) ∧
    reAStar.indexIn ['b', 'a'] 1 = some (1, 1) ∧
    (setSearchRow [mkItem ['b', 'a']] 0 (some reAStar))[0]? =
      some { mkItem ['b', 'a'] with filtered := true } := by
  decide

theorem setSearch_filter_spec_witness :
    (setSearchItem (some reAStar) (mkItem ['a'])).filtered = false :=
  (setSearch_filter_spec [mkItem ['a']] 0 reAStar (mkItem ['a']) rfl
    rfl).2.1.mpr ⟨0, 1, by decide, by decide⟩

/-- Claim C2 (amended): for a non-empty regular expression whose matches in
the item text are always found at or after the queried position, lie inside
the text, and are never empty, and which matches at least once, the
highlight produced by `setSearch` equals the spec-side concatenation over
the successive non-overlapping matches taken left to right: escaped gap,
opening span, escaped match, closing span, and finally the escaped
remainder after the last match. -/
theorem setSearch_highlight_spec (it : ClipboardItem) (re : QRegExp)
    (hre : re.isEmpty = false)
    (hm : ∀ a b len, re.indexIn it.text a = some (b, len) →
      a ≤ b ∧ b + len ≤ it.text.length ∧ len ≠ 0)
    (b0 len0 : Nat) (h0 : re.indexIn it.text 0 = some (b0, len0)) :
    (setSearchItem (some re) it).highlight =
      specHL it.text (matchSeq re.indexIn it.text (it.text.length + 1) 0) 0
    := by
  obtain ⟨-, -, hl0⟩ := hm 0 b0 len0 h0
  obtain ⟨k, rfl⟩ : ∃ k, len0 = k + 1 := ⟨len0 - 1, by omega⟩
  have hp1 := hlLoop_first_pos re.indexIn it.text h0
  have hmain := hlLoop_spec re.indexIn it.text hm (it.text.length + 1) 0
    (by omega)
  simp only [setSearchItem, hre, Bool.false_eq_true, if_false]
  rw [if_neg hp1]
  by_cases h2 : (hlLoop re.indexIn it.text (it.text.length + 1) 0 []).2 ≠
      it.text.length
  · rw [if_pos h2]
    exact hmain
  · rw [if_neg h2]
    push_neg at h2
    rw [← hmain, h2, List.drop_length]
    simp [escape]

/-- Counterexample to claim C2 as stated: `QRegExp("a*")` is non-empty and
has a non-empty match in the text "ba" (the character at position 1), but
the produced highlight is the empty string — the item is filtered and no
highlight is stored — not the claimed concatenation, which would contain
the non-empty literal of the opening span. -/
theorem setSearch_highlight_cex :
    reAStar.isEmpty = false ∧
    reAStar.indexIn ['b', 'a'] 1 = some (1, 1) ∧
    (setSearchItem (some reAStar) (mkItem ['b', 'a'])).highlight = [] ∧
    (setSearchItem (some reAStar) (mkItem ['b', 'a'])).filtered = true ∧
    spanOpen ≠ [] := by
  decide

/-- Claim C3 (amended): `move(pos, newpos)` wraps each argument cyclically
(an argument at or beyond `rowCount` becomes `0`, a negative argument
becomes `rowCount - 1`, an in-range argument is unchanged); when the two
wrapped rows differ it relocates the element at the wrapped source row to
the wrapped destination row, preserving the relative order of all other
elements, and returns true; when the wrapped rows coincide,
`beginMoveRows` rejects the no-op move and `move` returns false leaving
the model unchanged; on an empty model it returns false. -/
theorem move_spec (l : List ClipboardItem) (pos newpos : Int) :
    (l = [] → moveList l pos newpos = none) ∧
    (l ≠ [] →
      ((l.length : Int) ≤ pos → getRowNumber l pos true = 0) ∧
      (pos < 0 → getRowNumber l pos true = (l.length : Int) - 1) ∧
      (0 ≤ pos → pos < (l.length : Int) → getRowNumber l pos true = pos) ∧
      (getRowNumber l pos true = getRowNumber l newpos true →
        moveList l pos newpos = none) ∧
      (getRowNumber l pos true ≠ getRowNumber l newpos true →
        ∃ r, moveList l pos newpos = some r ∧ r.length = l.length ∧
          r[(getRowNumber l newpos true).toNat]? =
            l[(getRowNumber l pos true).toNat]? ∧
          r.eraseIdx (getRowNumber l newpos true).toNat =
            l.eraseIdx (getRowNumber l pos true).toNat)) := by
  constructor
  · intro h
    subst h
    rfl
  · intro hne
    have hn : 0 < l.length := List.length_pos.mpr hne
    have hb1 := getRowNumber_bounds l pos hn
    have hb2 := getRowNumber_bounds l newpos hn
    refine ⟨?_, ?_, ?_, ?_, ?_⟩
    · intro h1
      simp only [getRowNumber]
      rw [if_neg (by omega : ¬((l.length : Int) = 0)),
        if_pos (by omega : pos ≥ (l.length : Int))]
      simp only [if_true]
    · intro h1
      simp only [getRowNumber]
      rw [if_neg (by omega : ¬((l.length : Int) = 0)),
        if_neg (by omega : ¬(pos ≥ (l.length : Int))), if_pos h1]
      simp only [if_true]
    · intro h1 h2
      simp only [getRowNumber]
      rw [if_neg (by omega : ¬((l.length : Int) = 0)),
        if_neg (by omega : ¬(pos ≥ (l.length : Int))),
        if_neg (by omega : ¬(pos < 0))]
    · intro heq
      simp only [moveList]
      rw [heq, if_neg (by omega :
        ¬(getRowNumber l newpos true = -1 ∨ getRowNumber l newpos true = -1))]
      have h2 : beginMoveRowsOK (getRowNumber l newpos true)
          (if getRowNumber l newpos true < getRowNumber l newpos true then
            getRowNumber l newpos true + 1
          else getRowNumber l newpos true) = false := by
        rw [if_neg (lt_irrefl (getRowNumber l newpos true))]
        simp [beginMoveRowsOK]
      rw [h2]
      simp
    · intro hne2
      have hfN : (getRowNumber l pos true).toNat < l.length := by omega
      have htN : (getRowNumber l newpos true).toNat < l.length := by omega
      have herase : (l.eraseIdx (getRowNumber l pos true).toNat).length =
          l.length - 1 := by
        rw [List.length_eraseIdx, if_pos hfN]
      have htN' : (getRowNumber l newpos true).toNat ≤
          (l.eraseIdx (getRowNumber l pos true).toNat).length := by omega
      have hok : beginMoveRowsOK (getRowNumber l pos true)
          (if getRowNumber l pos true < getRowNumber l newpos true then
            getRowNumber l newpos true + 1
          else getRowNumber l newpos true) = true := by
        by_cases hlt : getRowNumber l pos true < getRowNumber l newpos true
        · rw [if_pos hlt]
          simp only [beginMoveRowsOK, Bool.not_eq_true']
          rw [Bool.and_eq_false_iff]
          right
          rw [decide_eq_false_iff_not]
          omega
        · rw [if_neg hlt]
          simp only [beginMoveRowsOK, Bool.not_eq_true']
          rw [Bool.and_eq_false_iff]
          left
          rw [decide_eq_false_iff_not]
          omega
      refine ⟨(l.eraseIdx (getRowNumber l pos true).toNat).insertIdx
        (getRowNumber l newpos true).toNat (l.get ⟨_, hfN⟩), ?_, ?_, ?_, ?_⟩
      · simp only [moveList]
        rw [if_neg (by omega :
            ¬(getRowNumber l pos true = -1 ∨ getRowNumber l newpos true = -1)),
          if_pos hok]
        simp only [qlistMove]
        rw [List.getElem?_eq_getElem hfN]
        rfl
      · rw [List.length_insertIdx _ _ htN', herase]
        omega
      · rw [List.getElem?_eq_getElem (by rw [List.length_insertIdx _ _ htN']; omega),
          List.getElem?_eq_getElem hfN]
        congr 1
        exact List.getElem_insertIdx_self _ _ _ htN'
      · exact List.eraseIdx_insertIdx _ _

/-- Counterexample to claim C3 as stated: on the non-empty model with the
single item "a", `move(0, 0)` wraps both arguments to row `0`;
`beginMoveRows` rejects this no-op move, so `move` returns false, not true
as the claim asserts for every pair of integer arguments. -/
theorem move_cex : moveList [mkItem ['a']] 0 0 = none := by
  decide

theorem move_spec_witness :
    ∃ r, moveList [mkItem ['a'], mkItem ['b']] 0 1 = some r ∧
      r.length = 2 := by
  obtain ⟨-, h2⟩ := move_spec [mkItem ['a'], mkItem ['b']] 0 1
  obtain ⟨-, -, -, -, h5⟩ := h2 (by decide)
  obtain ⟨r, hr, hlen, -, -⟩ := h5 (by decide)
  exact ⟨r, hr, hlen.trans (by rfl)⟩

theorem moveItemsLoop_top (key : Int) (sorted : List Int) :
    ∀ (k i : Nat) (st : List ClipboardItem) (res acc : Bool),
      (res = true → acc = true) →
      (moveItemsLoop key sorted i k st res).1 = true →
      movedToTopLoop key sorted i k st acc = true := by
  intro k
  induction k with
  | zero =>
    intro i st res acc himp h
    exact himp h
  | succ kk ih =>
    intro i st res acc himp h
    rw [moveItemsLoop] at h
    rw [movedToTopLoop]
    cases hm : moveList st (itemsFrom key sorted i) (itemsTo key sorted i st)
      with
    | none =>
      rw [hm] at h
      simp at h
    | some st2 =>
      rw [hm] at h
      refine ih (i + 1) st2 _ _ ?_ h
      intro hr
      have hst : st ≠ [] := moveList_some_ne_nil hm
      rw [Bool.or_eq_true] at hr ⊢
      rcases hr with hr | hr
      · exact Or.inl (himp hr)
      · right
        rw [decide_eq_true_eq] at hr
        rw [hr, decide_eq_true_eq]
        exact getRowNumber_zero hst

/-- Claim C4 (amended): for every selected index list and direction key,
`moveItems` returns true only if some item was moved to the top row during
the operation (some successful `move` call had wrapped destination row 0);
the claimed converse is false: an item can reach the top row while
`moveItems` returns false. -/
theorem moveItems_top_spec (l : List ClipboardItem) (rows : List Int)
    (key : Int) (h : (moveItems l rows key).1 = true) :
    movedToTop l rows key = true :=
  moveItemsLoop_top key (sortRows rows) (sortRows rows).length 0 l false
    false (fun hx => hx) h

/-- Counterexample to claim C4 as stated: with items ["a","b"] and the last
row selected, Key_Down computes destination `2`, which wraps to row `0`:
the item "b" is moved to the top row (the final list is ["b","a"], and the
spec-side observer records a move to the top), yet `moveItems` returns
false because the result flag compares the unwrapped destination with 0. -/
theorem moveItems_top_cex :
    (moveItems [mkItem ['a'], mkItem ['b']] [1] keyDown).1 = false ∧
    (moveItems [mkItem ['a'], mkItem ['b']] [1] keyDown).2 =
      [mkItem ['b'], mkItem ['a']] ∧
    movedToTop [mkItem ['a'], mkItem ['b']] [1] keyDown = true := by
  decide

theorem moveItems_top_spec_witness :
    movedToTop [mkItem ['a'], mkItem ['b']] [1] keyHome = true :=
  moveItems_top_spec [mkItem ['a'], mkItem ['b']] [1] keyHome (by decide)

theorem setSearch_highlight_spec_witness :
    (setSearchItem (some rePos0) (mkItem ['b'])).highlight =
      specHL (mkItem ['b']).text
        (matchSeq rePos0.indexIn (mkItem ['b']).text
          ((mkItem ['b']).text.length + 1) 0) 0 :=
  setSearch_highlight_spec (mkItem ['b']) rePos0 rfl
    (by
      intro a b len h
      simp only [rePos0] at h
      split at h
      · rename_i ha
        simp only [Option.some.injEq, Prod.mk.injEq] at h
        obtain ⟨hb, hlen⟩ := h
        refine ⟨by omega, ?_, by omega⟩
        show b + len ≤ 1
        omega
      · exact Option.noConfusion h)
    0 1 (by decide)

/-- Claim C5: for `0 ≤ p` and `p + n ≤ rowCount`, `removeRows(p, n)` deletes
exactly the `n` items at rows `p` through `p+n-1` (the result is the prefix
before `p` followed by the suffix from `p+n`, so the value and relative
order of every item outside the range is unchanged), decreases the row
count by `n`, and returns true. -/
theorem removeRows_spec (l : List ClipboardItem) (p n : Nat)
    (h : p + n ≤ l.length) :
    removeRows l (p : Int) (n : Int) = (true, l.take p ++ l.drop (p + n)) ∧
    (l.take p ++ l.drop (p + n)).length = l.length - n := by
  constructor
  · simp only [removeRows, Int.toNat_natCast]
    rw [removeLoop_eq p n l h]
  · rw [List.length_append, List.length_take, List.length_drop]
    omega

theorem removeRows_spec_witness :
    removeRows [mkItem ['a'], mkItem ['b'], mkItem ['c']] 1 1 =
      (true, [mkItem ['a'], mkItem ['b'], mkItem ['c']].take 1 ++
        [mkItem ['a'], mkItem ['b'], mkItem ['c']].drop (1 + 1)) ∧
    ([mkItem ['a'], mkItem ['b'], mkItem ['c']].take 1 ++
      [mkItem ['a'], mkItem ['b'], mkItem ['c']].drop (1 + 1)).length = 3 - 1 :=
  removeRows_spec [mkItem ['a'], mkItem ['b'], mkItem ['c']] 1 1 (by decide)

/-- Claim C6: for `p ≤ rowCount` and `n ≥ 1`, `insertRows(p, n)` inserts `n`
empty items at row `p` (rows `p` through `p+n-1` hold empty entries
afterwards, every previously stored item keeps its value and relative
order), grows the row count by exactly `n`, and returns true. -/
theorem insertRows_spec (l : List ClipboardItem) (p n : Nat)
    (hp : p ≤ l.length) (hn : 1 ≤ n) :
    insertRows l (p : Int) (n : Int) =
      (true, l.take p ++ List.replicate n (mkItem []) ++ l.drop p) ∧
    (l.take p ++ List.replicate n (mkItem []) ++ l.drop p).length =
      l.length + n ∧
    ∀ j, j < n →
      (l.take p ++ List.replicate n (mkItem []) ++ l.drop p)[p + j]? =
        some (mkItem []) := by
  have htp : (l.take p).length = p := by
    rw [List.length_take]
    omega
  refine ⟨?_, ?_, ?_⟩
  · simp only [insertRows, Int.toNat_natCast]
    rw [insertLoop_eq p n l hp]
  · simp only [List.length_append, List.length_replicate, htp,
      List.length_drop]
    omega
  · intro j hj
    rw [List.append_assoc, List.getElem?_append_right (by rw [htp]; omega),
      htp, Nat.add_sub_cancel_left,
      List.getElem?_append_left (by simpa using hj)]
    simp [hj]

theorem insertRows_spec_witness :
    insertRows [mkItem ['a']] 1 2 =
      (true, [mkItem ['a']].take 1 ++ List.replicate 2 (mkItem []) ++
        [mkItem ['a']].drop 1) ∧
    ([mkItem ['a']].take 1 ++ List.replicate 2 (mkItem []) ++
      [mkItem ['a']].drop 1).length = 1 + 2 ∧
    ∀ j, j < 2 →
      ([mkItem ['a']].take 1 ++ List.replicate 2 (mkItem []) ++
        [mkItem ['a']].drop 1)[1 + j]? = some (mkItem []) :=
  insertRows_spec [mkItem ['a']] 1 2 (by decide) (by decide)

/-- Claim C7: a model constructed from a list of strings stores them in
order: `rowCount` is the number of strings and `data` with the edit role at
row `i` returns the `i`-th string. -/
theorem clipboardModel_of_list_spec (items : List QStr) :
    rowCount (mkClipboardModel items) = items.length ∧
    ∀ i s, items[i]? = some s →
      data (mkClipboardModel items) ⟨true, (i : Nat)⟩ editRole =
        QVariant.str s := by
  refine ⟨by simp [rowCount, mkClipboardModel], ?_⟩
  intro i s hi
  obtain ⟨hlt, -⟩ := List.getElem?_eq_some.mp hi
  simp only [data, mkClipboardModel]
  rw [if_neg]
  · rw [Int.toNat_natCast, List.getElem?_map, hi]
    simp [mkItem, editRole, displayRole]
  · simp only [Bool.not_true, Bool.false_or, List.length_map]
    simp only [decide_eq_true_eq]
    omega

theorem clipboardModel_of_list_spec_witness :
    rowCount (mkClipboardModel [['a'], ['b']]) = 2 ∧
    data (mkClipboardModel [['a'], ['b']]) ⟨true, 1⟩ editRole =
      QVariant.str ['b'] :=
  ⟨(clipboardModel_of_list_spec [['a'], ['b']]).1,
    (clipboardModel_of_list_spec [['a'], ['b']]).2 1 ['b'] rfl⟩

/-- Claim C8: `escape` rewrites each character independently according to
the six-entry table and keeps every other character; consequently it is a
string homomorphism, and it is the identity on strings containing none of
the six special characters. -/
theorem escape_spec :
    (escape [' '] = "&nbsp;".toList ∧ escape ['\t'] = "&nbsp;&nbsp;".toList ∧
      escape ['\n'] = "<br />".toList ∧ escape ['<'] = "&lt;".toList ∧
      escape ['>'] = "&gt;".toList ∧ escape ['&'] = "&amp;".toList) ∧
    (∀ c : Char, c ∉ ([' ', '\t', '\n', '<', '>', '&'] : List Char) →
      escape [c] = [c]) ∧
    (∀ s t : QStr, escape (s ++ t) = escape s ++ escape t) ∧
    (∀ s : QStr, (∀ c ∈ s, c ∉ ([' ', '\t', '\n', '<', '>', '&'] : List Char)) →
      escape s = s) := by
  refine ⟨by decide, ?_, escape_append, escape_of_no_special⟩
  intro c hc
  rw [escape, replChar_eq_self hc]
  rfl

theorem escape_spec_witness :
    escape ['x'] = ['x'] ∧
    escape ("a<".toList ++ "b&".toList) =
      escape ("a<".toList) ++ escape ("b&".toList) ∧
    escape ("xy".toList) = "xy".toList :=
  ⟨escape_spec.2.1 'x' (by decide),
    escape_spec.2.2.1 ("a<".toList) ("b&".toList),
    escape_spec.2.2.2 ("xy".toList) (by decide)⟩

/-- Claim C9: when the index is invalid or the role is not the edit role,
`setData` returns false and the model is completely unchanged. -/
theorem setData_noop (l : List ClipboardItem) (index : QModelIndex)
    (value : QVariant) (role : Int)
    (h : ¬(index.valid = true ∧ role = editRole)) :
    setData l index value role = (false, l) := by
  rw [setData, if_neg h]

theorem setData_noop_witness :
    setData [mkItem ['a']] ⟨true, 0⟩ QVariant.null displayRole =
      (false, [mkItem ['a']]) :=
  setData_noop [mkItem ['a']] ⟨true, 0⟩ QVariant.null displayRole (by decide)

/-- Claim C10: `data` returns the null variant for an invalid index
(regardless of role), for a row at or beyond the number of stored items,
and for an in-range row with any role other than the display and edit
roles. -/
theorem data_null_spec (l : List ClipboardItem) (index : QModelIndex)
    (role : Int) :
    (index.valid = false → data l index role = QVariant.null) ∧
    (index.valid = true → (l.length : Int) ≤ index.row →
      data l index role = QVariant.null) ∧
    (index.valid = true → 0 ≤ index.row → index.row < (l.length : Int) →
      role ≠ displayRole → role ≠ editRole →
      data l index role = QVariant.null) := by
  refine ⟨?_, ?_, ?_⟩
  · intro h
    rw [data, if_pos]
    simp [h]
  · intro _ h
    rw [data, if_pos]
    simp [h]
  · intro hv h0 hlt hd he
    rw [data, if_neg]
    · have hlt' : index.row.toNat < l.length := by omega
      rw [List.getElem?_eq_getElem hlt']
      simp only []
      rw [if_neg, if_neg hd, if_neg he]
      rintro ⟨-, h | h⟩
      · exact hd h
      · exact he h
    · simp only [hv, Bool.not_true, Bool.false_or, decide_eq_true_eq]
      omega

theorem data_null_spec_witness :
    data [] ⟨false, 0⟩ 0 = QVariant.null ∧
    data [mkItem ['a']] ⟨true, 5⟩ 2 = QVariant.null ∧
    data [mkItem ['a']] ⟨true, 0⟩ 7 = QVariant.null :=
  ⟨(data_null_spec [] ⟨false, 0⟩ 0).1 rfl,
    (data_null_spec [mkItem ['a']] ⟨true, 5⟩ 2).2.1 rfl (by decide),
    (data_null_spec [mkItem ['a']] ⟨true, 0⟩ 7).2.2 rfl (by decide)
      (by decide) (by decide) (by decide)⟩

end CopyQ
